import Mathlib

/-!
# Verification of the media-catalog API core (`src/main.rs`)

Shallow embedding of the Rust program: a read-only media-catalog HTTP API
that serves JSON entry files from collection directories.

Modelling conventions:
* The filesystem is a flat map from directory names to listings; a listing is
  an association list from file names to `Option Json`.  A file whose stored
  content is `none` models a file that cannot be read or whose text is not
  valid JSON (the program collapses both through `read_to_string(..).ok()?`
  and `serde_json::from_str(..).ok()`); `some j` models a file whose text
  parses to the JSON value `j`.  Path components are opaque strings: the
  embedding does not give `/` a special meaning inside a component.
* JSON numbers are modelled as rationals (`ℚ`), abstracting the `f64` that
  `serde_json` produces for a JSON number.
* `chrono::DateTime<Utc>` parsing is modelled by `parseTimestamp`, a parser
  for the RFC-3339 subset `YYYY-MM-DDTHH:MM:SSZ` that returns an integer key
  ordering timestamps chronologically (a strictly monotone encoding of their
  lexicographic field order); RFC-3339 rendering is abstracted as an injective
  rendering of that key.  No claim depends on the exact accepted grammar.
* `humantime::parse_duration` is modelled on the unit subset
  `h`/`m`/`s`/`ms`; no claim depends on the exact unit set.
* `Duration::from_secs_f64` panics when its argument is negative, not finite,
  or overflows a `Duration`; the model makes the panic an explicit outcome
  (`panicked`), with the overflow bound taken as `2^64` seconds (float
  rounding at the boundary is abstracted; valid JSON text never yields a
  non-finite `f64` from `serde_json`).
* Rust's `sort_by_key(|e| Reverse(e.created_at))` is a stable sort by
  descending `created_at`; a stable sort is extensionally determined by the
  key, so it is embedded as `List.insertionSort` (stable) with the relation
  `byCreatedDesc`.
-/

/-- A parsed JSON value, as produced by `serde_json` from valid JSON text.
Objects keep their fields in textual order, which serde's derived
deserializer visits sequentially. -/
inductive Json : Type where
  | null : Json
  | bool (b : Bool) : Json
  | num (q : ℚ) : Json
  | str (s : String) : Json
  | arr (elems : List Json) : Json
  | obj (fields : List (String × Json)) : Json

/-- `struct Entry` from `main.rs`.  `created_at : ℤ` is the chronological key
of the parsed `DateTime<Utc>`; `duration : ℚ` is the duration in seconds. -/
structure Entry : Type where
  id : String
  title : String
  description : String
  created_at : ℤ
  duration : ℚ
  hidden : Option Bool
deriving DecidableEq, Repr

/-- Outcome of running a fallible Rust computation that can also panic:
`ok` a value, `err` (a `serde` error, collapsed to `None` by the callers),
or `panicked` (an actual Rust panic, from `Duration::from_secs_f64`). -/
inductive LoadRes (α : Type) : Type where
  | ok (a : α) : LoadRes α
  | err : LoadRes α
  | panicked : LoadRes α
deriving DecidableEq

/-- Outcome of an iterator step that cannot itself fail but can panic. -/
inductive PRes (α : Type) : Type where
  | ok (a : α) : PRes α
  | panicked : PRes α
deriving DecidableEq

/-! ## File-name splitting (`std::path`)

`Path::file_stem` / `Path::extension` on a single normal component: the
extension is the part after the last `.`, provided the part before that dot
is non-empty (so `".json"` has no extension and stem `".json"`). -/

/-- Split a character list at its last `.`: `some (before, after)`, or `none`
when no `.` occurs. -/
def splitLastDot : List Char → Option (List Char × List Char)
  | [] => none
  | c :: rest =>
    match splitLastDot rest with
    | some (b, a) => some (c :: b, a)
    | none => if c = '.' then some ([], rest) else none

/-- `Path::file_stem` on a file name. -/
def fileStem (f : String) : String :=
  match splitLastDot f.toList with
  | some ([], _) => f
  | some (b, _) => ⟨b⟩
  | none => f

/-- `Path::extension` on a file name. -/
def fileExtension (f : String) : Option String :=
  match splitLastDot f.toList with
  | some ([], _) => none
  | some (_, a) => some ⟨a⟩
  | none => none

/-- `Path::with_extension("json")` on the final component: the current
extension (if any) is replaced by `json`. -/
def withExtJson (f : String) : String :=
  fileStem f ++ ".json"

/-- The candidate test of `get_json`: extension is exactly `json` and the
stem contains no further `.`. -/
def isCandidate (f : String) : Bool :=
  fileExtension f == some "json" && !((fileStem f).toList.contains '.')

/-! ## Timestamp parsing (`chrono::DateTime<Utc>`) -/

/-- Decimal digit value of a character, if it is a digit. -/
def digitVal (c : Char) : Option ℕ :=
  if c.isDigit then some (c.toNat - 48) else none

/-- Read one decimal digit from the front of a character list. -/
def readDigit : List Char → Option (ℕ × List Char)
  | c :: rest => (digitVal c).map (fun d => (d, rest))
  | [] => none

/-- Read one expected literal character from the front. -/
def readChar (ch : Char) : List Char → Option (List Char)
  | c :: rest => if c = ch then some rest else none
  | [] => none

/-- Read a two-digit decimal number from the front. -/
def read2 (cs : List Char) : Option (ℕ × List Char) := do
  let (a, cs1) ← readDigit cs
  let (b, cs2) ← readDigit cs1
  pure (a * 10 + b, cs2)

/-- Parse the RFC-3339 subset `YYYY-MM-DDTHH:MM:SSZ` into an integer key that
orders timestamps chronologically (the multipliers strictly dominate each
field's validated range, so the key is monotone in the lexicographic field
order chrono uses). -/
def parseTimestamp (s : String) : Option ℤ := do
  let (a, cs1) ← read2 s.toList
  let (b, cs2) ← read2 cs1
  let y := a * 100 + b
  let cs3 ← readChar '-' cs2
  let (mo, cs4) ← read2 cs3
  let cs5 ← readChar '-' cs4
  let (da, cs6) ← read2 cs5
  let cs7 ← readChar 'T' cs6
  let (ho, cs8) ← read2 cs7
  let cs9 ← readChar ':' cs8
  let (mi, cs10) ← read2 cs9
  let cs11 ← readChar ':' cs10
  let (se, cs12) ← read2 cs11
  let cs13 ← readChar 'Z' cs12
  match cs13 with
  | [] =>
    if 1 ≤ mo ∧ mo ≤ 12 ∧ 1 ≤ da ∧ da ≤ 31 ∧ ho ≤ 23 ∧ mi ≤ 59 ∧ se ≤ 59 then
      some (((((((y * 13 + mo) * 32 + da) * 24 + ho) * 60 + mi) * 60 + se : ℕ) : ℤ))
    else
      none
  | _ :: _ => none

/-- Abstract rendering of a timestamp key back to ISO-8601 text (injective;
the claims do not depend on the concrete format). -/
def renderTimestamp (t : ℤ) : String :=
  toString t

/-! ## Duration decoding (`humantime::parse_duration` subset) -/

/-- Consume leading decimal digits; returns their value, how many there
were, and the rest. -/
def takeDigits : List Char → ℕ → ℕ → ℕ × ℕ × List Char
  | [], acc, cnt => (acc, cnt, [])
  | c :: rest, acc, cnt =>
    if c.isDigit then takeDigits rest (acc * 10 + (c.toNat - 48)) (cnt + 1)
    else (acc, cnt, c :: rest)

/-- Consume one unit suffix, returning its length in seconds. -/
def takeUnit : List Char → Option (ℚ × List Char)
  | 'h' :: rest => some (3600, rest)
  | 'm' :: 's' :: rest => some (1 / 1000, rest)
  | 'm' :: rest => some (60, rest)
  | 's' :: rest => some (1, rest)
  | _ => none

/-- Parse `<digits><unit>` groups; the fuel argument bounds recursion (each
group consumes at least one character). -/
def parseGroups : ℕ → List Char → Option ℚ
  | _, [] => some 0
  | 0, _ :: _ => none
  | fuel + 1, c :: cs => do
    let (n, cnt, rest) := takeDigits (c :: cs) 0 0
    if cnt = 0 then none
    else do
      let (u, rest2) ← takeUnit rest
      let q ← parseGroups fuel rest2
      pure (n * u + q)

/-- `humantime::parse_duration` (unit subset `h`/`m`/`s`/`ms`): seconds as a
rational, or `none` on a grammar error. -/
def parse_duration (s : String) : Option ℚ :=
  if s.isEmpty then none else parseGroups s.toList.length s.toList

/-- `Option<bool>` deserialization for the `hidden` field: `null` gives
`None`, a boolean gives `Some`, anything else is a serde error. -/
def decodeHidden : Json → Option (Option Bool)
  | Json.null => some none
  | Json.bool b => some (some b)
  | _ => none

/-- `parse_duration_flex` applied to the JSON value of the `duration` field:
a number goes through `Duration::from_secs_f64` (which PANICS when the value
is negative or at least `2^64` seconds); a string goes through
`humantime::parse_duration`; any other JSON value fails the untagged enum. -/
def decodeDuration : Json → LoadRes ℚ
  | Json.num q => if q < 0 ∨ (18446744073709551616 : ℚ) ≤ q then .panicked else .ok q
  | Json.str s =>
    match parse_duration s with
    | some q => .ok q
    | none => .err
  | _ => .err

/-! ## Entry deserialization (serde derive on `Entry`) -/

/-- The partial record built while serde's derived deserializer walks the
fields of the JSON object in textual order. -/
structure FieldAcc : Type where
  idF : Option String := none
  titleF : Option String := none
  descF : Option String := none
  createdF : Option ℤ := none
  durF : Option ℚ := none
  hiddenF : Option (Option Bool) := none

/-- Visit one `(key, value)` pair: a known key decodes its value into the
accumulator (erroring on a duplicate, as serde does), an unknown key is
ignored. -/
def stepField (k : String) (v : Json) (acc : FieldAcc) : LoadRes FieldAcc :=
  if k = "id" then
    match acc.idF, v with
    | none, Json.str s => .ok { acc with idF := some s }
    | _, _ => .err
  else if k = "title" then
    match acc.titleF, v with
    | none, Json.str s => .ok { acc with titleF := some s }
    | _, _ => .err
  else if k = "description" then
    match acc.descF, v with
    | none, Json.str s => .ok { acc with descF := some s }
    | _, _ => .err
  else if k = "created_at" then
    match acc.createdF, v with
    | none, Json.str s =>
      match parseTimestamp s with
      | some t => .ok { acc with createdF := some t }
      | none => .err
    | _, _ => .err
  else if k = "duration" then
    match acc.durF with
    | some _ => .err
    | none =>
      match decodeDuration v with
      | .ok q => .ok { acc with durF := some q }
      | .err => .err
      | .panicked => .panicked
  else if k = "hidden" then
    match acc.hiddenF with
    | some _ => .err
    | none =>
      match decodeHidden v with
      | some hv => .ok { acc with hiddenF := some hv }
      | none => .err
  else
    .ok acc

/-- Walk all fields in order, threading the accumulator. -/
def visitFields : List (String × Json) → FieldAcc → LoadRes FieldAcc
  | [], acc => .ok acc
  | (k, v) :: rest, acc =>
    match stepField k v acc with
    | .ok acc2 => visitFields rest acc2
    | .err => .err
    | .panicked => .panicked

/-- Deserialize an `Entry` from a JSON value: the value must be an object;
after the field walk, `id`, `title`, `created_at` and `duration` must be
present, `description` defaults to `""`, and `hidden` defaults to `None`. -/
def entryFromJson : Json → LoadRes Entry
  | Json.obj fields =>
    match visitFields fields {} with
    | .panicked => .panicked
    | .err => .err
    | .ok acc =>
      match acc.idF, acc.titleF, acc.createdF, acc.durF with
      | some i, some t, some c, some d =>
        .ok { id := i, title := t, description := acc.descF.getD "",
              created_at := c, duration := d, hidden := acc.hiddenF.getD none }
      | _, _, _, _ => .err
  | _ => .err

/-- `get_entry`: read the file and deserialize.  A file whose content is
`none` (unreadable, or text that is not valid JSON) is a serde/IO error. -/
def loadContent : Option Json → LoadRes Entry
  | none => .err
  | some j => entryFromJson j

/-! ## The filesystem and the collection scan -/

/-- The flat filesystem: directory name ↦ association list of
(file name, content). -/
structure FS : Type where
  dirs : List (String × List (String × Option Json))

/-- `read_dir`: the listing of a directory, or `none` when it cannot be
opened. -/
def FS.readDir (fs : FS) (dir : String) : Option (List (String × Option Json)) :=
  (fs.dirs.find? (fun p => p.1 == dir)).map (·.2)

/-- Existence-then-read of `dir/fname`: `none` when the path does not exist,
otherwise the file's stored content. -/
def FS.readFile? (fs : FS) (dir fname : String) : Option (Option Json) :=
  (fs.readDir dir).bind fun d => (d.find? (fun p => p.1 == fname)).map (·.2)

/-- `get_json` on one directory child: only a candidate file name is passed
to the loader, and a load failure becomes `none` (dropped by `filter_map`);
a load panic aborts the whole iteration. -/
def get_json (fc : String × Option Json) : PRes (Option Entry) :=
  if isCandidate fc.1 then
    match loadContent fc.2 with
    | .ok e => .ok (some e)
    | .err => .ok none
    | .panicked => .panicked
  else .ok none

/-- Drive the `filter_map(get_json)` iterator over the whole listing. -/
def collectEntries : List (String × Option Json) → PRes (List Entry)
  | [] => .ok []
  | fc :: rest =>
    match get_json fc with
    | .panicked => .panicked
    | .ok none => collectEntries rest
    | .ok (some e) =>
      match collectEntries rest with
      | .panicked => .panicked
      | .ok es => .ok (e :: es)

/-- `!e.hidden.unwrap_or(false)`. -/
def notHidden (e : Entry) : Bool :=
  !(e.hidden.getD false)

/-- The sort relation of `sort_by_key(|e| Reverse(e.created_at))`:
descending `created_at`. -/
def byCreatedDesc : Entry → Entry → Prop :=
  fun a b => b.created_at ≤ a.created_at

instance : DecidableRel byCreatedDesc :=
  fun a b => Int.decLe b.created_at a.created_at

instance : IsTotal Entry byCreatedDesc :=
  ⟨fun a b => le_total b.created_at a.created_at⟩

instance : IsTrans Entry byCreatedDesc :=
  ⟨fun _ _ _ hab hbc => le_trans hbc hab⟩

/-- The result of `get_entries`: the sorted visible entries, a scan error
(`read_dir` failed, HTTP 500), or a panic escaping the handler. -/
inductive ScanResult : Type where
  | ok (es : List Entry) : ScanResult
  | scanError : ScanResult
  | panicked : ScanResult
deriving DecidableEq

/-- `get_entries`: enumerate the directory, load candidates, drop hidden
entries, sort by `created_at` descending (stable). -/
def get_entries (fs : FS) (dir : String) : ScanResult :=
  match fs.readDir dir with
  | none => .scanError
  | some d =>
    match collectEntries d with
    | .panicked => .panicked
    | .ok es => .ok (List.insertionSort byCreatedDesc (es.filter notHidden))

/-! ## The HTTP routes -/

/-- The fixed collection list served by the `index` route. -/
def index : List String :=
  ["vods", "highlights", "clips", "rplay"]

/-- The `lists` route: `get_entries(kind)` on the literal path `kind`. -/
def lists (fs : FS) (kind : String) : ScanResult :=
  get_entries fs kind

/-- The result of the `entry` route: the entry (HTTP 200), `NotFound`
(404), `LoadError` (`InternalServerError`, 500), or a panic. -/
inductive LookupResult : Type where
  | ok (e : Entry) : LookupResult
  | notFound : LookupResult
  | loadError : LookupResult
  | panicked : LookupResult
deriving DecidableEq

/-- The `entry` route: build `PathBuf::from(kind).join(id).with_extension("json")`,
check existence, then load; a load failure after a successful existence
check is `InternalServerError`. -/
def entry (fs : FS) (kind id : String) : LookupResult :=
  match fs.readFile? kind (withExtJson id) with
  | none => .notFound
  | some c =>
    match loadContent c with
    | .ok e => .ok e
    | .err => .loadError
    | .panicked => .panicked

/-- HTTP status of a lookup outcome (Rocket turns an escaped panic into a
500 response). -/
def statusOf : LookupResult → ℕ
  | .ok _ => 200
  | .notFound => 404
  | .loadError => 500
  | .panicked => 500

/-- `serialize_duration`: whole seconds split into `h`/`m`/`s`, omitting the
hour part when zero and the minute part when both are zero. -/
def serialize_duration (d : ℚ) : String :=
  let secs := (⌊d⌋).toNat
  let h := secs / 3600
  let m := (secs % 3600) / 60
  let s := secs % 60
  if h > 0 then toString h ++ "h" ++ toString m ++ "m" ++ toString s ++ "s"
  else if m > 0 then toString m ++ "m" ++ toString s ++ "s"
  else toString s ++ "s"

/-- Serde serialization of an `Entry`: fields in declaration order, with
`hidden` skipped when `None` (`skip_serializing_if = "Option::is_none"`). -/
def serializeEntry (e : Entry) : Json :=
  Json.obj
    ([("id", Json.str e.id), ("title", Json.str e.title),
      ("description", Json.str e.description),
      ("created_at", Json.str (renderTimestamp e.created_at)),
      ("duration", Json.str (serialize_duration e.duration))] ++
     (match e.hidden with
      | none => []
      | some b => [("hidden", Json.bool b)]))

/-- First value bound to key `k` in an object's field list. -/
def fieldValue? (fields : List (String × Json)) (k : String) : Option Json :=
  (fields.find? (fun p => p.1 == k)).map (·.2)

/-- The fields of a JSON object (empty for non-objects). -/
def jsonFields : Json → List (String × Json)
  | Json.obj fields => fields
  | _ => []

/-! ## Concrete data used by witnesses and counterexamples

Durations in this data are JSON numbers: `Rat` addition and multiplication
are `@[irreducible]`, so the kernel can evaluate the loader on numeric
durations (comparisons only) but not on textual ones. -/

def fieldsE1 : List (String × Json) :=
  [("id", Json.str "e1"), ("title", Json.str "t1"),
   ("created_at", Json.str "2024-05-05T10:00:00Z"), ("duration", Json.num 61)]

def jE1 : Json := Json.obj fieldsE1

def eE1 : Entry :=
  { id := "e1", title := "t1", description := "",
    created_at := (parseTimestamp "2024-05-05T10:00:00Z").getD 0,
    duration := 61, hidden := none }

def fieldsE2 : List (String × Json) :=
  [("id", Json.str "e2"), ("title", Json.str "t2"),
   ("created_at", Json.str "2023-05-05T10:00:00Z"), ("duration", Json.num 3723),
   ("hidden", Json.bool false)]

def jE2 : Json := Json.obj fieldsE2

def eE2 : Entry :=
  { id := "e2", title := "t2", description := "",
    created_at := (parseTimestamp "2023-05-05T10:00:00Z").getD 0,
    duration := 3723, hidden := some false }

def fieldsH : List (String × Json) :=
  [("id", Json.str "h"), ("title", Json.str "th"),
   ("created_at", Json.str "2024-06-05T10:00:00Z"), ("duration", Json.num 5),
   ("hidden", Json.bool true)]

def jH : Json := Json.obj fieldsH

def eH : Entry :=
  { id := "h", title := "th", description := "",
    created_at := (parseTimestamp "2024-06-05T10:00:00Z").getD 0,
    duration := 5, hidden := some true }

/-- A listing exercising every scanner branch: a hidden entry, an unreadable
file, a sidecar `x.meta.json`, a non-JSON name, and two visible entries out
of creation order. -/
def dW : List (String × Option Json) :=
  [("e2.json", some jE2), ("bad.json", none), ("x.meta.json", some jE1),
   ("e1.json", some jE1), ("h.json", some jH), ("notes.txt", none)]

def fsW : FS := ⟨[("vods", dW)]⟩

/-- The same listing under a directory name outside the fixed collection
list. -/
def fsX : FS := ⟨[("weird", dW)]⟩

/-- What `get_entries fsW "vods"` returns: visible entries, newest first. -/
def listW : List Entry := [eE1, eE2]

/-- A file `a.json` whose payload carries `id := "zzz"`, different from the
file stem `a`. -/
def fieldsC6 : List (String × Json) :=
  [("id", Json.str "zzz"), ("title", Json.str "t"),
   ("created_at", Json.str "2024-01-02T03:04:05Z"), ("duration", Json.num 7)]

def jC6 : Json := Json.obj fieldsC6

def eZ : Entry :=
  { id := "zzz", title := "t", description := "",
    created_at := (parseTimestamp "2024-01-02T03:04:05Z").getD 0,
    duration := 7, hidden := none }

def fsC6 : FS := ⟨[("vods", [("a.json", some jC6)])]⟩

/-- A payload with no `id` member at all. -/
def jNoId : Json :=
  Json.obj [("title", Json.str "t"),
            ("created_at", Json.str "2024-01-02T03:04:05Z"),
            ("duration", Json.num 1)]

/-- A payload whose `duration` is the JSON number `-1`:
`Duration::from_secs_f64(-1.0)` panics. -/
def jNeg : Json :=
  Json.obj [("id", Json.str "x"), ("title", Json.str "t"),
            ("created_at", Json.str "2024-01-02T03:04:05Z"),
            ("duration", Json.num (-1))]

def fsNeg : FS := ⟨[("vods", [("neg.json", some jNeg)])]⟩

/-! ## Helper lemmas -/

lemma splitLastDot_eq_none {cs : List Char} (h : '.' ∉ cs) :
    splitLastDot cs = none := by
  induction cs with
  | nil => rfl
  | cons c rest ih =>
    have hc : ¬(c = '.') := fun e => h (e ▸ List.mem_cons_self c rest)
    have hr : '.' ∉ rest := fun m => h (List.mem_cons_of_mem _ m)
    simp [splitLastDot, ih hr, hc]

lemma fileStem_of_no_dot {f : String} (hm : '.' ∉ f.toList) :
    fileStem f = f := by
  unfold fileStem
  rw [splitLastDot_eq_none hm]

lemma withExtJson_of_no_dot {f : String} (hm : '.' ∉ f.toList) :
    withExtJson f = f ++ ".json" := by
  rw [withExtJson, fileStem_of_no_dot hm]

lemma notHidden_iff {e : Entry} : notHidden e = true ↔ e.hidden ≠ some true := by
  cases hb : e.hidden with
  | none => simp [notHidden, hb]
  | some b => cases b <;> simp [notHidden, hb]

lemma get_json_ok_some {f : String} {c : Option Json} {e : Entry}
    (h : get_json (f, c) = PRes.ok (some e)) :
    isCandidate f = true ∧ ∃ j, c = some j ∧ entryFromJson j = LoadRes.ok e := by
  by_cases hc : isCandidate f = true
  · refine ⟨hc, ?_⟩
    cases c with
    | none => simp [get_json, hc, loadContent] at h
    | some j =>
      cases hj : entryFromJson j with
      | ok e2 =>
        simp [get_json, hc, loadContent, hj] at h
        exact ⟨j, rfl, by rw [hj, h]⟩
      | err => simp [get_json, hc, loadContent, hj] at h
      | panicked => simp [get_json, hc, loadContent, hj] at h
  · simp [get_json, hc] at h

lemma get_json_of_ok {f : String} {j : Json} {e : Entry}
    (hc : isCandidate f = true) (hj : entryFromJson j = LoadRes.ok e) :
    get_json (f, some j) = PRes.ok (some e) := by
  simp [get_json, hc, loadContent, hj]

lemma collect_sound :
    ∀ {d : List (String × Option Json)} {es : List Entry},
      collectEntries d = PRes.ok es → ∀ {e : Entry}, e ∈ es →
        ∃ f j, (f, some j) ∈ d ∧ isCandidate f = true ∧
          entryFromJson j = LoadRes.ok e := by
  intro d
  induction d with
  | nil =>
    intro es h e he
    simp only [collectEntries] at h
    cases h
    simp at he
  | cons fc rest ih =>
    intro es h e he
    simp only [collectEntries] at h
    cases hg : get_json fc with
    | panicked => rw [hg] at h; cases h
    | ok oe =>
      rw [hg] at h
      cases oe with
      | none =>
        obtain ⟨f, j, hin, hcand, hjson⟩ := ih h he
        exact ⟨f, j, List.mem_cons_of_mem _ hin, hcand, hjson⟩
      | some e2 =>
        cases hr : collectEntries rest with
        | panicked => rw [hr] at h; cases h
        | ok es2 =>
          rw [hr] at h
          cases h
          rcases List.mem_cons.mp he with he1 | he2
          · subst he1
            obtain ⟨f, c⟩ := fc
            obtain ⟨hcand, j, hc, hjson⟩ := get_json_ok_some hg
            subst hc
            exact ⟨f, j, List.mem_cons_self _ _, hcand, hjson⟩
          · obtain ⟨f, j, hin, hcand, hjson⟩ := ih hr he2
            exact ⟨f, j, List.mem_cons_of_mem _ hin, hcand, hjson⟩

lemma collect_complete :
    ∀ {d : List (String × Option Json)} {es : List Entry},
      collectEntries d = PRes.ok es → ∀ {f : String} {j : Json} {e : Entry},
        (f, some j) ∈ d → isCandidate f = true →
        entryFromJson j = LoadRes.ok e → e ∈ es := by
  intro d
  induction d with
  | nil =>
    intro es _ f j e hin
    simp at hin
  | cons fc rest ih =>
    intro es h f j e hin hcand hjson
    simp only [collectEntries] at h
    rcases List.mem_cons.mp hin with h1 | h2
    · subst h1
      rw [get_json_of_ok hcand hjson] at h
      cases hr : collectEntries rest with
      | panicked => rw [hr] at h; cases h
      | ok es2 =>
        rw [hr] at h
        cases h
        exact List.mem_cons_self _ _
    · cases hg : get_json fc with
      | panicked => rw [hg] at h; cases h
      | ok oe =>
        rw [hg] at h
        cases oe with
        | none => exact ih h h2 hcand hjson
        | some e2 =>
          cases hr : collectEntries rest with
          | panicked => rw [hr] at h; cases h
          | ok es2 =>
            rw [hr] at h
            cases h
            exact List.mem_cons_of_mem _ (ih hr h2 hcand hjson)

lemma get_entries_ok {fs : FS} {dir : String} {es : List Entry}
    (h : get_entries fs dir = ScanResult.ok es) :
    ∃ d raw, fs.readDir dir = some d ∧ collectEntries d = PRes.ok raw ∧
      es = List.insertionSort byCreatedDesc (raw.filter notHidden) := by
  cases hd : fs.readDir dir with
  | none => simp [get_entries, hd] at h
  | some d =>
    cases hc : collectEntries d with
    | panicked => simp [get_entries, hd, hc] at h
    | ok raw =>
      simp [get_entries, hd, hc] at h
      exact ⟨d, raw, rfl, hc, h.symm⟩

lemma stepField_track {k : String} {v : Json} {acc acc2 : FieldAcc}
    (h : stepField k v acc = LoadRes.ok acc2) :
    (k ≠ "id" → acc2.idF = acc.idF) ∧
    (k = "id" → acc.idF = none ∧ ∃ s, v = Json.str s ∧ acc2.idF = some s) ∧
    (k ≠ "hidden" → acc2.hiddenF = acc.hiddenF) ∧
    (k = "hidden" → acc.hiddenF = none ∧
      ∃ hv, decodeHidden v = some hv ∧ acc2.hiddenF = some hv) := by
  unfold stepField at h
  split_ifs at h with h1 h2 h3 h4 h5 h6 <;>
    (repeat' split at h) <;> simp_all <;> (subst h; exact ⟨rfl, rfl⟩)

lemma fieldValue_cons {k : String} {v : Json} {rest : List (String × Json)}
    {key : String} :
    fieldValue? ((k, v) :: rest) key =
      if k = key then some v else fieldValue? rest key := by
  by_cases hk : k = key
  · simp [fieldValue?, List.find?, hk]
  · have hb : (k == key) = false := beq_eq_false_iff_ne.mpr hk
    simp [fieldValue?, List.find?, hb, hk]

lemma visitFields_track :
    ∀ (fields : List (String × Json)) (acc res : FieldAcc),
      visitFields fields acc = LoadRes.ok res →
      ((fieldValue? fields "id" = none ∧ res.idF = acc.idF) ∨
       (acc.idF = none ∧
        ∃ s, fieldValue? fields "id" = some (Json.str s) ∧ res.idF = some s)) ∧
      ((fieldValue? fields "hidden" = none ∧ res.hiddenF = acc.hiddenF) ∨
       (acc.hiddenF = none ∧
        ∃ v hv, fieldValue? fields "hidden" = some v ∧
          decodeHidden v = some hv ∧ res.hiddenF = some hv)) := by
  intro fields
  induction fields with
  | nil =>
    intro acc res h
    simp only [visitFields] at h
    cases h
    exact ⟨Or.inl ⟨rfl, rfl⟩, Or.inl ⟨rfl, rfl⟩⟩
  | cons kv rest ih =>
    intro acc res h
    obtain ⟨k, v⟩ := kv
    simp only [visitFields] at h
    cases hs : stepField k v acc with
    | err => rw [hs] at h; cases h
    | panicked => rw [hs] at h; cases h
    | ok acc2 =>
      rw [hs] at h
      obtain ⟨hid_ne, hid_eq, hhid_ne, hhid_eq⟩ := stepField_track hs
      obtain ⟨ihid, ihhid⟩ := ih acc2 res h
      constructor
      · by_cases hk : k = "id"
        · subst hk
          obtain ⟨haccnone, s, hv, hacc2⟩ := hid_eq rfl
          subst hv
          refine Or.inr ⟨haccnone, s, ?_, ?_⟩
          · rw [fieldValue_cons]; simp
          · rcases ihid with ⟨_, hres⟩ | ⟨hacc2none, _⟩
            · rw [hres, hacc2]
            · rw [hacc2] at hacc2none; cases hacc2none
        · rw [fieldValue_cons, if_neg hk]
          have he : acc2.idF = acc.idF := hid_ne hk
          rcases ihid with ⟨hnone, hres⟩ | ⟨hacc2none, s, hfv, hres⟩
          · exact Or.inl ⟨hnone, by rw [hres, he]⟩
          · rw [he] at hacc2none
            exact Or.inr ⟨hacc2none, s, hfv, hres⟩
      · by_cases hk : k = "hidden"
        · subst hk
          obtain ⟨haccnone, hv, hdec, hacc2⟩ := hhid_eq rfl
          refine Or.inr ⟨haccnone, v, hv, ?_, hdec, ?_⟩
          · rw [fieldValue_cons]; simp
          · rcases ihhid with ⟨_, hres⟩ | ⟨hacc2none, _⟩
            · rw [hres, hacc2]
            · rw [hacc2] at hacc2none; cases hacc2none
        · rw [fieldValue_cons, if_neg hk]
          have he : acc2.hiddenF = acc.hiddenF := hhid_ne hk
          rcases ihhid with ⟨hnone, hres⟩ | ⟨hacc2none, w, hw, hfv, hdec, hres⟩
          · exact Or.inl ⟨hnone, by rw [hres, he]⟩
          · rw [he] at hacc2none
            exact Or.inr ⟨hacc2none, w, hw, hfv, hdec, hres⟩

lemma entryFromJson_ok_fields {fields : List (String × Json)} {e : Entry}
    (h : entryFromJson (Json.obj fields) = LoadRes.ok e) :
    fieldValue? fields "id" = some (Json.str e.id) ∧
    (fieldValue? fields "hidden" = none → e.hidden = none) ∧
    (∀ v, fieldValue? fields "hidden" = some v → decodeHidden v = some e.hidden) := by
  simp only [entryFromJson] at h
  cases hv : visitFields fields {} with
  | err => rw [hv] at h; cases h
  | panicked => rw [hv] at h; cases h
  | ok acc =>
    rw [hv] at h
    cases hid : acc.idF with
    | none => simp [hid] at h
    | some i =>
      cases htit : acc.titleF with
      | none => simp [hid, htit] at h
      | some t =>
        cases hcre : acc.createdF with
        | none => simp [hid, htit, hcre] at h
        | some c =>
          cases hdur : acc.durF with
          | none => simp [hid, htit, hcre, hdur] at h
          | some dq =>
            simp only [hid, htit, hcre, hdur] at h
            obtain ⟨hidt, hhidt⟩ := visitFields_track fields {} acc hv
            cases h
            constructor
            · rcases hidt with ⟨_, hres⟩ | ⟨_, s, hfv, hres⟩
              · rw [hid] at hres; cases hres
              · rw [hid] at hres
                injection hres with hres
                subst hres
                exact hfv
            · rcases hhidt with ⟨hfvnone, hres⟩ | ⟨_, w, hw, hfv, hdec, hres⟩
              · constructor
                · intro _
                  simp [hres]
                · intro v hv2
                  rw [hfvnone] at hv2
                  cases hv2
              · constructor
                · intro hn
                  rw [hfv] at hn
                  cases hn
                · intro v hv2
                  rw [hfv] at hv2
                  injection hv2 with hv2
                  subst hv2
                  rw [hdec, hres]
                  rfl

lemma fieldValue_serialize_hidden (e : Entry) :
    fieldValue? (jsonFields (serializeEntry e)) "hidden" =
      Option.map Json.bool e.hidden := by
  obtain ⟨i, t, ds, c, q, hid⟩ := e
  cases hid <;> rfl

/-! ## Claim theorems -/

/-- **C1**: every entry that loads from a candidate file of a scanned
collection directory is excluded from the `get_entries` listing exactly when
its `hidden` field is `some true`, and included when `hidden` is absent or
`false`; the single-entry `entry` route applies no hidden filter and returns
the loaded entry whatever its `hidden` field is. -/
theorem hidden_filter_on_listing_not_on_lookup :
    (∀ (fs : FS) (dir : String) (d : List (String × Option Json))
        (es : List Entry) (f : String) (j : Json) (e : Entry),
        FS.readDir fs dir = some d → get_entries fs dir = ScanResult.ok es →
        (f, some j) ∈ d → isCandidate f = true → entryFromJson j = LoadRes.ok e →
        ((e.hidden = some true → e ∉ es) ∧ (e.hidden ≠ some true → e ∈ es))) ∧
    (∀ (fs : FS) (kind id : String) (j : Json) (e : Entry),
        FS.readFile? fs kind (withExtJson id) = some (some j) →
        entryFromJson j = LoadRes.ok e → entry fs kind id = LookupResult.ok e) := by
  constructor
  · intro fs dir d es f j e hd hok hin hcand hj
    obtain ⟨d2, raw, hd2, hcol, hes⟩ := get_entries_ok hok
    rw [hd] at hd2
    injection hd2 with hd2
    subst hd2
    subst hes
    constructor
    · intro hhid hmem
      rw [List.mem_insertionSort] at hmem
      have hnh := (List.mem_filter.mp hmem).2
      rw [notHidden_iff] at hnh
      exact hnh hhid
    · intro hhid
      rw [List.mem_insertionSort]
      exact List.mem_filter.mpr
        ⟨collect_complete hcol hin hcand hj, notHidden_iff.mpr hhid⟩
  · intro fs kind id j e hread hj
    unfold entry
    rw [hread]
    simp [loadContent, hj]

/-- Witness for C1 at the concrete filesystem `fsW`: the hidden entry `eH`
is absent from the listing, the visible entry `eE1` is present, and the
lookup still returns `eH`. -/
theorem hidden_filter_on_listing_not_on_lookup_witness :
    (eH.hidden = some true ∧ eH ∉ listW) ∧ eE1 ∈ listW ∧
    entry fsW "vods" "h" = LookupResult.ok eH := by
  refine ⟨⟨rfl, ?_⟩, ?_, ?_⟩
  · exact (hidden_filter_on_listing_not_on_lookup.1 fsW "vods" dW listW
      "h.json" jH eH rfl (by decide) (by simp [dW]) (by decide) (by decide)).1 rfl
  · exact (hidden_filter_on_listing_not_on_lookup.1 fsW "vods" dW listW
      "e1.json" jE1 eE1 rfl (by decide) (by simp [dW]) (by decide) (by decide)).2
      (by simp [eE1])
  · exact hidden_filter_on_listing_not_on_lookup.2 fsW "vods" "h" jH eH rfl
      (by decide)

/-- **C2**: a successful `get_entries` listing is sorted by `created_at` in
non-increasing order: each adjacent pair satisfies
`next.created_at ≤ previous.created_at`. -/
theorem listing_sorted_by_created_at_desc :
    ∀ (fs : FS) (dir : String) (es : List Entry),
      get_entries fs dir = ScanResult.ok es →
      es.Chain' (fun a b => b.created_at ≤ a.created_at) := by
  intro fs dir es h
  obtain ⟨d, raw, _, _, hes⟩ := get_entries_ok h
  subst hes
  exact List.Pairwise.chain' (List.sorted_insertionSort byCreatedDesc _)

/-- Witness for C2 at the concrete filesystem `fsW`. -/
theorem listing_sorted_by_created_at_desc_witness :
    get_entries fsW "vods" = ScanResult.ok listW ∧
    listW.Chain' (fun a b => b.created_at ≤ a.created_at) :=
  ⟨by decide, listing_sorted_by_created_at_desc fsW "vods" listW (by decide)⟩

/-- **C3** counterexample: for `id = "a.b"` the route does not consult
`vods/a.b.json` — `with_extension` replaces the `.b` suffix, so the lookup
reads `vods/a.json` and succeeds even though `vods/a.b.json` does not exist
(the claim would require `NotFound` here). -/
theorem lookup_path_literal_counterexample :
    FS.readFile? fsC6 "vods" "a.b.json" = none ∧
    entry fsC6 "vods" "a.b" = LookupResult.ok eZ :=
  ⟨rfl, by decide⟩

/-- **C3** (amended): when the id contains no `.`, the computed file name is
`<id>.json` (in general the part of the id after its last dot is replaced by
`json`); and in all cases the route reports `NotFound` exactly when the
computed path does not exist. -/
theorem lookup_path_and_notfound_amended :
    ∀ (fs : FS) (kind id : String),
      ('.' ∉ id.toList → withExtJson id = id ++ ".json") ∧
      (entry fs kind id = LookupResult.notFound ↔
        FS.readFile? fs kind (withExtJson id) = none) := by
  intro fs kind id
  refine ⟨fun h => withExtJson_of_no_dot h, ?_⟩
  unfold entry
  cases hr : FS.readFile? fs kind (withExtJson id) with
  | none => simp
  | some c => cases hl : loadContent c <;> simp [hl]

/-- Witness for the amended C3 at a concrete missing id. -/
theorem lookup_path_and_notfound_amended_witness :
    withExtJson "missing" = "missing" ++ ".json" ∧
    (entry fsW "vods" "missing" = LookupResult.notFound ↔
      FS.readFile? fsW "vods" (withExtJson "missing") = none) :=
  ⟨(lookup_path_and_notfound_amended fsW "vods" "missing").1 (by decide),
   (lookup_path_and_notfound_amended fsW "vods" "missing").2⟩

/-- **C4**: when the computed path exists but the loader fails, the route
answers `LoadError` (HTTP 500); when the path does not exist it answers
`NotFound` (HTTP 404); the two outcomes are distinct. -/
theorem lookup_loaderror_vs_notfound :
    ∀ (fs : FS) (kind id : String),
      (∀ c, FS.readFile? fs kind (withExtJson id) = some c →
        loadContent c = LoadRes.err → entry fs kind id = LookupResult.loadError) ∧
      (FS.readFile? fs kind (withExtJson id) = none →
        entry fs kind id = LookupResult.notFound) ∧
      statusOf LookupResult.loadError = 500 ∧
      statusOf LookupResult.notFound = 404 ∧
      LookupResult.loadError ≠ LookupResult.notFound := by
  intro fs kind id
  refine ⟨?_, ?_, rfl, rfl, by simp⟩
  · intro c hr hl
    unfold entry
    rw [hr]
    simp [hl]
  · intro hr
    unfold entry
    rw [hr]

/-- Witness for C4: `bad.json` exists with unparseable content (500), while
`nope.json` does not exist (404). -/
theorem lookup_loaderror_vs_notfound_witness :
    entry fsW "vods" "bad" = LookupResult.loadError ∧
    entry fsW "vods" "nope" = LookupResult.notFound :=
  ⟨(lookup_loaderror_vs_notfound fsW "vods" "bad").1 none rfl rfl,
   (lookup_loaderror_vs_notfound fsW "vods" "nope").2.1 rfl⟩

/-- **C5**: every entry of a listing comes from a candidate file — name
ending in `.json` with no further `.` in the stem — and `x.meta.json` is not
a candidate, so it can never contribute a listing entry whatever its
content. -/
theorem only_candidates_loaded_sidecar_excluded :
    (∀ (fs : FS) (dir : String) (d : List (String × Option Json))
        (es : List Entry) (e : Entry),
        FS.readDir fs dir = some d → get_entries fs dir = ScanResult.ok es →
        e ∈ es →
        ∃ f j, (f, some j) ∈ d ∧ isCandidate f = true ∧
          entryFromJson j = LoadRes.ok e) ∧
    isCandidate "x.meta.json" = false := by
  constructor
  · intro fs dir d es e hd hok hmem
    obtain ⟨d2, raw, hd2, hcol, hes⟩ := get_entries_ok hok
    rw [hd] at hd2
    injection hd2 with hd2
    subst hd2
    subst hes
    rw [List.mem_insertionSort] at hmem
    exact collect_sound hcol (List.mem_filter.mp hmem).1
  · decide

/-- Witness for C5: the concrete listing `dW` (which contains an
`x.meta.json` file) produces `listW`, and the provenance of `eE1` is a
candidate file. -/
theorem only_candidates_loaded_sidecar_excluded_witness :
    get_entries fsW "vods" = ScanResult.ok listW ∧
    (∃ f j, (f, some j) ∈ dW ∧ isCandidate f = true ∧
      entryFromJson j = LoadRes.ok eE1) :=
  ⟨by decide,
   only_candidates_loaded_sidecar_excluded.1 fsW "vods" dW listW eE1 rfl
     (by decide) (by decide)⟩

/-- **C6** counterexample: the file `vods/a.json` stores `"id": "zzz"`; the
lookup returns an entry whose id is `"zzz"`, not the filename stem `"a"`,
and a payload with no `id` member fails to load — so the id is read from the
payload, not derived from the filename. -/
theorem id_from_payload_counterexample :
    entry fsC6 "vods" "a" = LookupResult.ok eZ ∧ eZ.id ≠ "a" ∧
    entryFromJson jNoId = LoadRes.err :=
  ⟨by decide, by decide, by decide⟩

/-- **C6** (amended): the id of a loaded entry is exactly the string stored
under the required `id` member of the JSON payload, and loading cannot
succeed when that member is absent; the filename stem plays no role. -/
theorem id_read_from_payload_amended :
    ∀ (fields : List (String × Json)),
      (∀ e, entryFromJson (Json.obj fields) = LoadRes.ok e →
        fieldValue? fields "id" = some (Json.str e.id)) ∧
      (fieldValue? fields "id" = none →
        ∀ e, entryFromJson (Json.obj fields) ≠ LoadRes.ok e) := by
  intro fields
  have main : ∀ e, entryFromJson (Json.obj fields) = LoadRes.ok e →
      fieldValue? fields "id" = some (Json.str e.id) :=
    fun _ h => (entryFromJson_ok_fields h).1
  refine ⟨main, ?_⟩
  intro hnone e h
  rw [main e h] at hnone
  cases hnone

/-- Witness for the amended C6 at a concrete payload. -/
theorem id_read_from_payload_amended_witness :
    fieldValue? fieldsC6 "id" = some (Json.str eZ.id) :=
  (id_read_from_payload_amended fieldsC6).1 eZ (by decide)

/-- **C7** (evaluating the code at the failing input): a JSON numeric
duration of `-1` does not collapse to the absent result — the loader panics
(`Duration::from_secs_f64`), the single-entry route panics, and so does a
directory scan over the file. -/
theorem loader_panics_on_negative_duration :
    entryFromJson jNeg = LoadRes.panicked ∧
    entry fsNeg "vods" "neg" = LookupResult.panicked ∧
    get_entries fsNeg "vods" = ScanResult.panicked :=
  ⟨by decide, by decide, by decide⟩

/-- **C8**: `serialize_duration` truncates to whole seconds and emits the
compact `h`/`m`/`s` form, omitting the hours part exactly below 3600 whole
seconds and additionally the minutes part below 60; with the spec's concrete
examples. -/
theorem serialize_duration_compact_format :
    (∀ d : ℚ, 0 ≤ d →
      serialize_duration d = serialize_duration ((⌊d⌋ : ℤ) : ℚ) ∧
      ((⌊d⌋).toNat < 60 →
        serialize_duration d = toString (⌊d⌋).toNat ++ "s") ∧
      (60 ≤ (⌊d⌋).toNat → (⌊d⌋).toNat < 3600 →
        serialize_duration d =
          toString ((⌊d⌋).toNat / 60) ++ "m" ++
            toString ((⌊d⌋).toNat % 60) ++ "s") ∧
      (3600 ≤ (⌊d⌋).toNat →
        serialize_duration d =
          toString ((⌊d⌋).toNat / 3600) ++ "h" ++
            toString ((⌊d⌋).toNat % 3600 / 60) ++ "m" ++
            toString ((⌊d⌋).toNat % 60) ++ "s")) ∧
    serialize_duration 0 = "0s" ∧ serialize_duration 61 = "1m1s" ∧
    serialize_duration 90 = "1m30s" ∧ serialize_duration 3600 = "1h0m0s" ∧
    serialize_duration 3661 = "1h1m1s" ∧ serialize_duration 7325 = "2h2m5s" := by
  refine ⟨?_, by decide, by decide, by decide, by decide, by decide, by decide⟩
  intro d _
  refine ⟨?_, ?_, ?_, ?_⟩
  · simp [serialize_duration, Int.floor_intCast]
  · intro hlt
    have h1 : ¬((⌊d⌋).toNat / 3600 > 0) := by omega
    have h2 : ¬((⌊d⌋).toNat % 3600 / 60 > 0) := by omega
    have h3 : (⌊d⌋).toNat % 60 = (⌊d⌋).toNat := by omega
    simp [serialize_duration, h1, h2, h3]
  · intro hge hlt
    have h1 : ¬((⌊d⌋).toNat / 3600 > 0) := by omega
    have h2 : (⌊d⌋).toNat % 3600 / 60 > 0 := by omega
    have h3 : (⌊d⌋).toNat % 3600 / 60 = (⌊d⌋).toNat / 60 := by omega
    have h4 : (⌊d⌋).toNat / 60 > 0 := by omega
    simp [serialize_duration, h1, h2, h3, h4]
  · intro hge
    have h1 : (⌊d⌋).toNat / 3600 > 0 := by omega
    simp [serialize_duration, h1]

/-- Witness for C8 at the concrete duration 61. -/
theorem serialize_duration_compact_format_witness :
    serialize_duration (61 : ℚ) =
      toString ((⌊(61 : ℚ)⌋).toNat / 60) ++ "m" ++
        toString ((⌊(61 : ℚ)⌋).toNat % 60) ++ "s" :=
  (serialize_duration_compact_format.1 61 (by decide)).2.2.1 (by decide)
    (by decide)

/-- **C9** counterexample: the file behind `jE2` stores `"hidden": false`
(not `true`), yet the serialized output still carries a `hidden` field — the
code skips the field only when the option is `None`, not when it is
`Some(false)`. -/
theorem hidden_false_still_emitted_counterexample :
    entryFromJson jE2 = LoadRes.ok eE2 ∧
    fieldValue? fieldsE2 "hidden" = some (Json.bool false) ∧
    fieldValue? (jsonFields (serializeEntry eE2)) "hidden" =
      some (Json.bool false) :=
  ⟨by decide, rfl, rfl⟩

/-- **C9** (amended): the serialized `hidden` field is present exactly when
the source payload carried a boolean `hidden` member (either value), with
the same value; it is never emitted when the member was absent (or `null`,
which also deserializes to `None`). -/
theorem hidden_emitted_iff_present_in_source :
    ∀ (fields : List (String × Json)) (e : Entry),
      entryFromJson (Json.obj fields) = LoadRes.ok e →
      ((fieldValue? fields "hidden" = none →
          fieldValue? (jsonFields (serializeEntry e)) "hidden" = none) ∧
       (fieldValue? fields "hidden" = some Json.null →
          fieldValue? (jsonFields (serializeEntry e)) "hidden" = none) ∧
       (∀ b, fieldValue? fields "hidden" = some (Json.bool b) →
          fieldValue? (jsonFields (serializeEntry e)) "hidden" =
            some (Json.bool b))) := by
  intro fields e h
  obtain ⟨_, hnone, hsome⟩ := entryFromJson_ok_fields h
  rw [fieldValue_serialize_hidden]
  refine ⟨?_, ?_, ?_⟩
  · intro hfv
    rw [hnone hfv]
    rfl
  · intro hfv
    have h2 : e.hidden = none := by
      have := hsome _ hfv
      simp [decodeHidden] at this
      exact this.symm
    rw [h2]
    rfl
  · intro b hfv
    have h2 : e.hidden = some b := by
      have := hsome _ hfv
      simp [decodeHidden] at this
      exact this.symm
    rw [h2]
    rfl

/-- Witness for the amended C9 at the concrete payload `fieldsE2`. -/
theorem hidden_emitted_iff_present_in_source_witness :
    fieldValue? (jsonFields (serializeEntry eE2)) "hidden" =
      some (Json.bool false) :=
  (hidden_emitted_iff_present_in_source fieldsE2 eE2 (by decide)).2.2 false rfl

/-- **C10**: the fixed collection list only feeds the `index` route; `lists`
and `entry` act on the directory literally named by `kind`, so their
behavior depends only on that directory's content, never on membership of
`kind` in the fixed list. -/
theorem kind_never_checked_against_fixed_list :
    index = ["vods", "highlights", "clips", "rplay"] ∧
    ∀ (fs1 fs2 : FS) (k1 k2 id : String),
      FS.readDir fs1 k1 = FS.readDir fs2 k2 →
      lists fs1 k1 = lists fs2 k2 ∧ entry fs1 k1 id = entry fs2 k2 id := by
  refine ⟨rfl, ?_⟩
  intro fs1 fs2 k1 k2 id h
  constructor
  · unfold lists get_entries
    rw [h]
  · unfold entry FS.readFile?
    rw [h]

/-- Witness for C10: the same listing served under the unknown collection
name `weird` behaves exactly as under `vods`. -/
theorem kind_never_checked_against_fixed_list_witness :
    "weird" ∉ index ∧ lists fsX "weird" = lists fsW "vods" ∧
    entry fsX "weird" "e1" = entry fsW "vods" "e1" :=
  ⟨by decide,
   (kind_never_checked_against_fixed_list.2 fsX fsW "weird" "vods" "e1" rfl).1,
   (kind_never_checked_against_fixed_list.2 fsX fsW "weird" "vods" "e1" rfl).2⟩
